import Mathlib

/-!
Verification of the markdown tokenizer fragment: the event taxonomy and
positional bookkeeping (`src/event.rs`) and the two example constructs,
the setext heading (`src/construct/heading_setext.rs`) and the bracketed
label factory (`src/construct/partial_label.rs`).

The construct state functions are embedded one-to-one from the source.
The generic tokenizer substrate (the `Code` classifier, `enter`, `consume`,
`exit`, `attempt`, the whitespace partials, `util::link`, `util::span` and
the constants) is not part of the surveyed source tree; those pieces are
modelled from the specification, each marked `Modelled from the spec:`.
-/

/-- A classified unit of input.  Modelled from the spec: the `Code`
discriminated value `{EndOfInput, CarriageReturnLineFeed, VirtualSpace,
Byte}`; in the surveyed constructs line endings appear as
`Code::Char` of a newline or carriage return, so bytes are carried as
characters here as well. -/
inductive Code where
  | none : Code
  | carriageReturnLineFeed : Code
  | virtualSpace : Code
  | char : Char → Code
deriving DecidableEq, Repr

/-- Token types used by the surveyed constructs.  The surveyed construct
files take them from the (absent) tokenizer module; the variants listed
here are exactly the ones those files mention, plus the definition-label
triple used to instantiate the label factory's options. -/
inductive TokenType where
  | headingSetext : TokenType
  | headingSetextText : TokenType
  | headingSetextUnderline : TokenType
  | chunkText : TokenType
  | chunkString : TokenType
  | lineEnding : TokenType
  | whitespace : TokenType
  | spaceOrTab : TokenType
  | definitionLabel : TokenType
  | definitionLabelMarker : TokenType
  | definitionLabelString : TokenType
deriving DecidableEq, Repr

/-- Place in the document, from `src/event.rs`: 1-indexed `line` and
`column`, 0-indexed byte `index`, and virtual step `vs`. -/
structure Point where
  line : Nat
  column : Nat
  index : Nat
  vs : Nat
deriving DecidableEq, Repr

/-- Event kinds, from `src/event.rs`. -/
inductive Kind where
  | enter : Kind
  | exit : Kind
deriving DecidableEq, Repr

/-- An event as the surveyed constructs use it: kind, token type, the
point at which it happens, and the `previous`/`next` link indices into
the event log that `heading_setext.rs` manipulates directly. -/
structure Event where
  kind : Kind
  tokenType : TokenType
  point : Point
  previous : Option Nat
  next : Option Nat
deriving DecidableEq, Repr

instance : Inhabited Event :=
  ⟨⟨Kind.enter, TokenType.chunkText, ⟨1, 1, 0, 0⟩, Option.none, Option.none⟩⟩

/-- The tokenizer state the surveyed constructs observe: the event log
and the current point.  Modelled from the spec: the substrate's cursor
and append-only log. -/
structure Tokenizer where
  events : List Event
  point : Point
deriving DecidableEq, Repr

/-- Modelled from the spec: `LINK_REFERENCE_SIZE_MAX` from the absent
`constant.rs`, also documented as `999` in `partial_label.rs`. -/
def LINK_REFERENCE_SIZE_MAX : Nat := 999

/-- Modelled from the spec: `TAB_SIZE` from the absent `constant.rs`. -/
def TAB_SIZE : Nat := 4

/-- Modelled from the spec: the point tracker's `advance` — on a line
ending set `line += 1`, `column = 1`, `vs = 0` and advance `index` by one
(two for CRLF); on a virtual space increment `column` and `vs`; on any
other byte increment `column` and `index`. -/
def Point.advance (p : Point) (c : Code) : Point :=
  match c with
  | Code.none => p
  | Code.carriageReturnLineFeed => ⟨p.line + 1, 1, p.index + 2, 0⟩
  | Code.virtualSpace => ⟨p.line, p.column + 1, p.index, p.vs + 1⟩
  | Code.char ch =>
    if ch = '\n' ∨ ch = '\r' then ⟨p.line + 1, 1, p.index + 1, 0⟩
    else ⟨p.line, p.column + 1, p.index + 1, p.vs⟩

/-- Modelled from the spec: `enter(name)` appends an Enter event at the
current point. -/
def Tokenizer.enter (t : Tokenizer) (tt : TokenType) : Tokenizer :=
  { t with events := t.events ++ [⟨Kind.enter, tt, t.point, Option.none, Option.none⟩] }

/-- Modelled from the spec: `exit(name)` appends an Exit event at the
current point. -/
def Tokenizer.exit (t : Tokenizer) (tt : TokenType) : Tokenizer :=
  { t with events := t.events ++ [⟨Kind.exit, tt, t.point, Option.none, Option.none⟩] }

/-- Modelled from the spec: `consume(code)` advances the point and emits
nothing. -/
def Tokenizer.consume (t : Tokenizer) (c : Code) : Tokenizer :=
  { t with point := t.point.advance c }

/-- Set the `next` link of the event at `i` (no-op out of range, the
source asserts in-range). -/
def setNext (events : List Event) (i : Nat) (v : Option Nat) : List Event :=
  match events.get? i with
  | Option.some e => events.set i { e with next := v }
  | Option.none => events

/-- Set the `previous` link of the event at `i`. -/
def setPrevious (events : List Event) (i : Nat) (v : Option Nat) : List Event :=
  match events.get? i with
  | Option.some e => events.set i { e with previous := v }
  | Option.none => events

/-- Modelled from the spec: `util::link::link(events, index)` connects the
Enter at `index` with the Enter two positions earlier through the log's
`previous`/`next` indices (the "previous-two indices" pattern that
`heading_setext.rs` also writes out by hand). -/
def link (events : List Event) (index : Nat) : List Event :=
  setNext (setPrevious events index (Option.some (index - 2))) (index - 2) (Option.some index)

/-- Outcome of a state function: `Ok` or `Nok` (the `Fn` continuations of
the source are run to completion by the embedding). -/
inductive State where
  | ok : State
  | nok : State
deriving DecidableEq, Repr

/-- Result of running states to completion: final outcome, final
tokenizer, and the input not yet consumed (the source's
`(State::Ok, Some(vec![code]))` re-queues the current code, which here
leaves it on the front of `rest`). -/
structure Res where
  state : State
  tok : Tokenizer
  rest : List Code
deriving DecidableEq, Repr

/-- The code currently being fed: head of the remaining input, or
`EndOfInput` when the input is exhausted. -/
def curCode (input : List Code) : Code :=
  input.headD Code.none

/-- Is the code a space, tab or virtual space (the set the space-or-tab
and whitespace partials consume)? -/
def isStv (c : Code) : Bool :=
  match c with
  | Code.virtualSpace => true
  | Code.char ch => ch == '\t' || ch == ' '
  | _ => false

/-- Modelled from the spec: the consuming loop shared by the
space-or-tab and whitespace partials — consume codes while they are
space, tab or virtual space. -/
def stvRun (t : Tokenizer) : List Code → Tokenizer × List Code
  | [] => (t, [])
  | c :: rest =>
    if isStv c then stvRun (t.consume c) rest
    else (t, c :: rest)

/-- Modelled from the spec: `space_or_tab_opt()` — skip an optional run
of space/tab codes, wrapped in a `SpaceOrTab` span when non-empty,
always succeeding. -/
def space_or_tab_opt (t : Tokenizer) (input : List Code) : Tokenizer × List Code :=
  if isStv (curCode input) then
    let t := t.enter TokenType.spaceOrTab
    let r := stvRun t input
    (r.1.exit TokenType.spaceOrTab, r.2)
  else (t, input)

/-- Modelled from the spec: `partial_whitespace::start` — one or more
space/tab/virtual-space codes collected into a single span of the given
token type; `Nok` when the first code is not such a code. -/
def whitespace (t : Tokenizer) (input : List Code) (tt : TokenType) : Res :=
  if isStv (curCode input) then
    let t := t.enter tt
    let r := stvRun t input
    ⟨State.ok, r.1.exit tt, r.2⟩
  else ⟨State.nok, t, input⟩

namespace PartialLabel

/-- Configuration of the label factory, from `partial_label.rs`:
the token types for the whole label, the markers and the inner string. -/
structure Options where
  label : TokenType
  marker : TokenType
  string : TokenType
deriving DecidableEq, Repr

/-- State needed to parse labels, from `partial_label.rs`. -/
structure Info where
  connect : Bool
  data : Bool
  size : Nat
  options : Options
deriving DecidableEq, Repr

mutual

/-- State function `at_break` from `partial_label.rs`: in a label, at something. -/
def at_break (fuel : Nat) (t : Tokenizer) (input : List Code) (info : Info) : Res :=
  match fuel with
  | 0 => ⟨State.nok, t, input⟩
  | fuel + 1 =>
    match curCode input with
    | Code.none => ⟨State.nok, t, input⟩
    | Code.char '[' => ⟨State.nok, t, input⟩
    | Code.char ']' =>
      if !info.data then ⟨State.nok, t, input⟩
      else if info.size > LINK_REFERENCE_SIZE_MAX then ⟨State.nok, t, input⟩
      else
        let t := t.exit info.options.string
        let t := t.enter info.options.marker
        let t := t.consume (Code.char ']')
        let t := t.exit info.options.marker
        let t := t.exit info.options.label
        ⟨State.ok, t, input.tail⟩
    | _ =>
      if info.size > LINK_REFERENCE_SIZE_MAX then ⟨State.nok, t, input⟩
      else
        let t := t.enter TokenType.chunkString
        let t :=
          if info.connect then
            { t with events := link t.events (t.events.length - 1) }
          else t
        let info := if info.connect then info else { info with connect := true }
        label fuel t input info

/-- State function `label` from `partial_label.rs`: in a label, in text.  Note that the
source's escape transition fires on the code `'/'`, not on a backslash,
although the file's own grammar comment says `label_escape ::= '\\' …`. -/
def label (fuel : Nat) (t : Tokenizer) (input : List Code) (info : Info) : Res :=
  match fuel with
  | 0 => ⟨State.nok, t, input⟩
  | fuel + 1 =>
    match curCode input with
    | Code.none => at_break fuel (t.exit TokenType.chunkString) input info
    | Code.char '[' => at_break fuel (t.exit TokenType.chunkString) input info
    | Code.char ']' => at_break fuel (t.exit TokenType.chunkString) input info
    | Code.carriageReturnLineFeed =>
      if info.size > LINK_REFERENCE_SIZE_MAX then
        at_break fuel (t.exit TokenType.chunkString) input info
      else
        let t := t.consume Code.carriageReturnLineFeed
        let info := { info with size := info.size + 1 }
        let t := t.exit TokenType.chunkString
        line_start fuel t input.tail info
    | Code.char '\r' =>
      if info.size > LINK_REFERENCE_SIZE_MAX then
        at_break fuel (t.exit TokenType.chunkString) input info
      else
        let t := t.consume (Code.char '\r')
        let info := { info with size := info.size + 1 }
        let t := t.exit TokenType.chunkString
        line_start fuel t input.tail info
    | Code.char '\n' =>
      if info.size > LINK_REFERENCE_SIZE_MAX then
        at_break fuel (t.exit TokenType.chunkString) input info
      else
        let t := t.consume (Code.char '\n')
        let info := { info with size := info.size + 1 }
        let t := t.exit TokenType.chunkString
        line_start fuel t input.tail info
    | Code.virtualSpace =>
      if info.size > LINK_REFERENCE_SIZE_MAX then
        at_break fuel (t.exit TokenType.chunkString) input info
      else
        label fuel (t.consume Code.virtualSpace) input.tail
          { info with size := info.size + 1 }
    | Code.char '\t' =>
      if info.size > LINK_REFERENCE_SIZE_MAX then
        at_break fuel (t.exit TokenType.chunkString) input info
      else
        label fuel (t.consume (Code.char '\t')) input.tail
          { info with size := info.size + 1 }
    | Code.char ' ' =>
      if info.size > LINK_REFERENCE_SIZE_MAX then
        at_break fuel (t.exit TokenType.chunkString) input info
      else
        label fuel (t.consume (Code.char ' ')) input.tail
          { info with size := info.size + 1 }
    | Code.char '/' =>
      if info.size > LINK_REFERENCE_SIZE_MAX then
        at_break fuel (t.exit TokenType.chunkString) input info
      else
        escape fuel (t.consume (Code.char '/')) input.tail
          { info with size := info.size + 1, data := true }
    | Code.char ch =>
      if info.size > LINK_REFERENCE_SIZE_MAX then
        at_break fuel (t.exit TokenType.chunkString) input info
      else
        label fuel (t.consume (Code.char ch)) input.tail
          { info with size := info.size + 1, data := true }

/-- State function `line_start` from `partial_label.rs`: after a line ending, go through
optional space-or-tab into `line_begin`. -/
def line_start (fuel : Nat) (t : Tokenizer) (input : List Code) (info : Info) : Res :=
  match fuel with
  | 0 => ⟨State.nok, t, input⟩
  | fuel + 1 =>
    let r := space_or_tab_opt t input
    line_begin fuel r.1 r.2 info

/-- State function `line_begin` from `partial_label.rs`: after a line ending and
optional whitespace; a blank line is not allowed. -/
def line_begin (fuel : Nat) (t : Tokenizer) (input : List Code) (info : Info) : Res :=
  match fuel with
  | 0 => ⟨State.nok, t, input⟩
  | fuel + 1 =>
    match curCode input with
    | Code.carriageReturnLineFeed => ⟨State.nok, t, input⟩
    | Code.char '\r' => ⟨State.nok, t, input⟩
    | Code.char '\n' => ⟨State.nok, t, input⟩
    | _ => at_break fuel t input info

/-- State function `escape` from `partial_label.rs`: after the escape code in a label. -/
def escape (fuel : Nat) (t : Tokenizer) (input : List Code) (info : Info) : Res :=
  match fuel with
  | 0 => ⟨State.nok, t, input⟩
  | fuel + 1 =>
    match curCode input with
    | Code.char '[' =>
      label fuel (t.consume (Code.char '[')) input.tail { info with size := info.size + 1 }
    | Code.char '\\' =>
      label fuel (t.consume (Code.char '\\')) input.tail { info with size := info.size + 1 }
    | Code.char ']' =>
      label fuel (t.consume (Code.char ']')) input.tail { info with size := info.size + 1 }
    | _ => label fuel t input info

end

/-- State function `start` from `partial_label.rs`: before a label; anything but `[`
fails without touching the tokenizer. -/
def start (fuel : Nat) (t : Tokenizer) (input : List Code) (options : Options) : Res :=
  match fuel with
  | 0 => ⟨State.nok, t, input⟩
  | fuel + 1 =>
    match curCode input with
    | Code.char '[' =>
      let info : Info := ⟨false, false, 0, options⟩
      let t := t.enter info.options.label
      let t := t.enter info.options.marker
      let t := t.consume (Code.char '[')
      let t := t.exit info.options.marker
      let t := t.enter info.options.string
      at_break fuel t input.tail info
    | _ => ⟨State.nok, t, input⟩

end PartialLabel

/-- The options used when the label factory parses a definition label. -/
def definitionOptions : PartialLabel.Options :=
  ⟨TokenType.definitionLabel, TokenType.definitionLabelMarker, TokenType.definitionLabelString⟩

/-- The tokenizer at the start of a document. -/
def initialTokenizer : Tokenizer :=
  ⟨[], ⟨1, 1, 0, 0⟩⟩

/-- Run the label factory from the start state on a whole input, with
enough fuel for any run over that input. -/
def runLabel (input : List Code) : Res :=
  PartialLabel.start (4 * input.length + 16) initialTokenizer input definitionOptions

/-- Turn a string into the code sequence its bytes classify to (no tabs
or CRLF sequences are used in the inputs below, so each character is one
code). -/
def codesOfString (s : String) : List Code :=
  s.data.map Code.char

/-- Modelled from the spec: wrapping a parse in an `attempt` commits the
events on `Ok` and restores the pre-attempt tokenizer and input on
`Nok`. -/
def attemptRun (body : Tokenizer → List Code → Res) (t : Tokenizer) (input : List Code) :
    Bool × Tokenizer × List Code :=
  let r := body t input
  match r.state with
  | State.ok => (true, r.tok, r.rest)
  | State.nok => (false, t, input)

/-- Modelled from the spec: `util::span::from_exit_event` — the byte span
of the event at `index`, from the matching Enter (the nearest preceding
event of the same token type with kind Enter) to this Exit; returns the
span length in bytes. -/
def spanLenOfExit (events : List Event) (index : Nat) : Nat :=
  match events.get? index with
  | Option.some exi =>
    match (events.take index).reverse.find?
        (fun e => decide (e.kind = Kind.enter ∧ e.tokenType = exi.tokenType)) with
    | Option.some ent => exi.point.index - ent.point.index
    | Option.none => 0
  | Option.none => 0

namespace HeadingSetext

/-- Kind of underline, from `heading_setext.rs`. -/
inductive Kind where
  | dash : Kind
  | equalsTo : Kind
deriving DecidableEq, Repr

mutual

/-- State function `text_inside` from `heading_setext.rs`: inside the heading text.  The
`attempt(underline_before, …)` of the source is inlined: on `Ok` the
body's events are kept and `after` continues, on `Nok` the tokenizer and
input are restored and `text_continue` continues. -/
def text_inside (fuel : Nat) (t : Tokenizer) (input : List Code) : Res :=
  match fuel with
  | 0 => ⟨State.nok, t, input⟩
  | fuel + 1 =>
    match curCode input with
    | Code.none => ⟨State.nok, t, input⟩
    | Code.carriageReturnLineFeed =>
      let t := t.exit TokenType.chunkText
      let t := t.exit TokenType.headingSetextText
      let r := underline_before fuel t input
      match r.state with
      | State.ok => after fuel r.tok r.rest
      | State.nok => text_continue fuel t input
    | Code.char '\n' =>
      let t := t.exit TokenType.chunkText
      let t := t.exit TokenType.headingSetextText
      let r := underline_before fuel t input
      match r.state with
      | State.ok => after fuel r.tok r.rest
      | State.nok => text_continue fuel t input
    | Code.char '\r' =>
      let t := t.exit TokenType.chunkText
      let t := t.exit TokenType.headingSetextText
      let r := underline_before fuel t input
      match r.state with
      | State.ok => after fuel r.tok r.rest
      | State.nok => text_continue fuel t input
    | c => text_inside fuel (t.consume c) input.tail

/-- State function `text_continue` from `heading_setext.rs`: at a line ending that is
not an underline.  The source enters `HeadingSetextText` and then pops
two events off the log, then consumes the line ending inside a
`LineEnding` pair and writes `previous`/`next` indices by hand; the
`attempt` of the whitespace partial is inlined.  A non-line-ending code
is a contract violation (`unreachable!` in the source), modelled as
`Nok`. -/
def text_continue (fuel : Nat) (t : Tokenizer) (input : List Code) : Res :=
  match fuel with
  | 0 => ⟨State.nok, t, input⟩
  | fuel + 1 =>
    let t := t.enter TokenType.headingSetextText
    let t := { t with events := t.events.dropLast.dropLast }
    match curCode input with
    | Code.carriageReturnLineFeed => text_continue_eol fuel t input Code.carriageReturnLineFeed
    | Code.char '\n' => text_continue_eol fuel t input (Code.char '\n')
    | Code.char '\r' => text_continue_eol fuel t input (Code.char '\r')
    | _ => ⟨State.nok, t, input⟩

/-- The line-ending body of `text_continue` (shared by the source's
single or-pattern arm). -/
def text_continue_eol (fuel : Nat) (t : Tokenizer) (input : List Code) (c : Code) : Res :=
  match fuel with
  | 0 => ⟨State.nok, t, input⟩
  | fuel + 1 =>
    let next := t.events.length
    let previous := next - 2
    let t := t.enter TokenType.lineEnding
    let t := t.consume c
    let t := t.exit TokenType.lineEnding
    let t := { t with events := setNext t.events previous (Option.some next) }
    let t := { t with events := setPrevious t.events next (Option.some previous) }
    let input := input.tail
    let r := whitespace t input TokenType.whitespace
    match r.state with
    | State.ok => text_line_start fuel r.tok r.rest
    | State.nok => text_line_start fuel t input

/-- State function `text_line_start` from `heading_setext.rs`: after the line ending and
optional whitespace, not at an underline. -/
def text_line_start (fuel : Nat) (t : Tokenizer) (input : List Code) : Res :=
  match fuel with
  | 0 => ⟨State.nok, t, input⟩
  | fuel + 1 =>
    let next := t.events.length - 2
    let previous := next - 2
    let t :=
      if (t.events.getD next default).tokenType = TokenType.whitespace then
        { t with events := setPrevious (setNext t.events previous (Option.some next)) next (Option.some previous) }
      else t
    match curCode input with
    | Code.none => ⟨State.nok, t, input⟩
    | Code.carriageReturnLineFeed => ⟨State.nok, t, input⟩
    | Code.char '\n' => ⟨State.nok, t, input⟩
    | Code.char '\r' => ⟨State.nok, t, input⟩
    | _ =>
      let next := t.events.length
      let previous := next - 2
      let t := t.enter TokenType.chunkText
      let t := { t with events := setNext t.events previous (Option.some next) }
      let t := { t with events := setPrevious t.events next (Option.some previous) }
      text_inside fuel t input

/-- State function `after` from `heading_setext.rs`: after a heading (setext); re-queues
the current code. -/
def after (fuel : Nat) (t : Tokenizer) (input : List Code) : Res :=
  match fuel with
  | 0 => ⟨State.nok, t, input⟩
  | _ + 1 => ⟨State.ok, t.exit TokenType.headingSetext, input⟩

/-- State function `underline_before` from `heading_setext.rs`: at the line ending in
front of a presumed underline; a non-line-ending is a contract violation
(`unreachable!`), modelled as `Nok`. -/
def underline_before (fuel : Nat) (t : Tokenizer) (input : List Code) : Res :=
  match fuel with
  | 0 => ⟨State.nok, t, input⟩
  | fuel + 1 =>
    match curCode input with
    | Code.carriageReturnLineFeed =>
      let t := t.enter TokenType.lineEnding
      let t := t.consume Code.carriageReturnLineFeed
      let t := t.exit TokenType.lineEnding
      underline_start fuel t input.tail
    | Code.char '\n' =>
      let t := t.enter TokenType.lineEnding
      let t := t.consume (Code.char '\n')
      let t := t.exit TokenType.lineEnding
      underline_start fuel t input.tail
    | Code.char '\r' =>
      let t := t.enter TokenType.lineEnding
      let t := t.consume (Code.char '\r')
      let t := t.exit TokenType.lineEnding
      underline_start fuel t input.tail
    | _ => ⟨State.nok, t, input⟩

/-- State function `underline_start` from `heading_setext.rs`: optional whitespace, then
the underline sequence (the `attempt` is inlined). -/
def underline_start (fuel : Nat) (t : Tokenizer) (input : List Code) : Res :=
  match fuel with
  | 0 => ⟨State.nok, t, input⟩
  | fuel + 1 =>
    let r := whitespace t input TokenType.whitespace
    match r.state with
    | State.ok => underline_sequence_start fuel r.tok r.rest
    | State.nok => underline_sequence_start fuel t input

/-- State function `underline_sequence_start` from `heading_setext.rs`: after optional
whitespace; a whitespace prefix of `TAB_SIZE` or more bytes rejects the
underline. -/
def underline_sequence_start (fuel : Nat) (t : Tokenizer) (input : List Code) : Res :=
  match fuel with
  | 0 => ⟨State.nok, t, input⟩
  | fuel + 1 =>
    let pfx :=
      match t.events.getLast? with
      | Option.some e =>
        if e.tokenType = TokenType.whitespace then
          spanLenOfExit t.events (t.events.length - 1)
        else 0
      | Option.none => 0
    if pfx ≥ TAB_SIZE then ⟨State.nok, t, input⟩
    else
      match curCode input with
      | Code.char '-' =>
        underline_sequence_inside fuel (t.enter TokenType.headingSetextUnderline) input Kind.dash
      | Code.char '=' =>
        underline_sequence_inside fuel (t.enter TokenType.headingSetextUnderline) input Kind.equalsTo
      | _ => ⟨State.nok, t, input⟩

/-- State function `underline_sequence_inside` from `heading_setext.rs`: in the
underline sequence. -/
def underline_sequence_inside (fuel : Nat) (t : Tokenizer) (input : List Code) (kind : Kind) : Res :=
  match fuel with
  | 0 => ⟨State.nok, t, input⟩
  | fuel + 1 =>
    let marker := if kind = Kind.dash then '-' else '='
    match curCode input with
    | Code.char ch =>
      if ch = marker then
        underline_sequence_inside fuel (t.consume (Code.char ch)) input.tail kind
      else if ch = '\t' ∨ ch = ' ' then
        let r := whitespace t input TokenType.whitespace
        match r.state with
        | State.ok => underline_after fuel r.tok r.rest
        | State.nok => underline_after fuel t input
      else underline_after fuel t input
    | Code.virtualSpace =>
      let r := whitespace t input TokenType.whitespace
      match r.state with
      | State.ok => underline_after fuel r.tok r.rest
      | State.nok => underline_after fuel t input
    | _ => underline_after fuel t input

/-- State function `underline_after` from `heading_setext.rs`: after the underline and
its trailing whitespace; re-queues the current code on success. -/
def underline_after (fuel : Nat) (t : Tokenizer) (input : List Code) : Res :=
  match fuel with
  | 0 => ⟨State.nok, t, input⟩
  | _ + 1 =>
    match curCode input with
    | Code.none => ⟨State.ok, t.exit TokenType.headingSetextUnderline, input⟩
    | Code.carriageReturnLineFeed => ⟨State.ok, t.exit TokenType.headingSetextUnderline, input⟩
    | Code.char '\n' => ⟨State.ok, t.exit TokenType.headingSetextUnderline, input⟩
    | Code.char '\r' => ⟨State.ok, t.exit TokenType.headingSetextUnderline, input⟩
    | _ => ⟨State.nok, t, input⟩

end

/-- State function `start` from `heading_setext.rs`: start of a heading (setext); a
line ending or end of input here is a contract violation
(`unreachable!`), modelled as `Nok`. -/
def start (fuel : Nat) (t : Tokenizer) (input : List Code) : Res :=
  match fuel with
  | 0 => ⟨State.nok, t, input⟩
  | fuel + 1 =>
    match curCode input with
    | Code.none => ⟨State.nok, t, input⟩
    | Code.carriageReturnLineFeed => ⟨State.nok, t, input⟩
    | Code.char '\n' => ⟨State.nok, t, input⟩
    | Code.char '\r' => ⟨State.nok, t, input⟩
    | _ =>
      let t := t.enter TokenType.headingSetext
      let t := t.enter TokenType.headingSetextText
      let t := t.enter TokenType.chunkText
      text_inside fuel t input

end HeadingSetext

/-- Run the setext heading construct from its start state on a whole
input, with enough fuel for any run over that input. -/
def runHeading (input : List Code) : Res :=
  HeadingSetext.start (8 * input.length + 32) initialTokenizer input

/-- The event taxonomy from `src/event.rs`: the closed `Name` enum, all
120 variants in source order. -/
inductive Name where
  | AttentionSequence : Name
  | Autolink : Name
  | AutolinkEmail : Name
  | AutolinkMarker : Name
  | AutolinkProtocol : Name
  | BlankLineEnding : Name
  | BlockQuote : Name
  | BlockQuoteMarker : Name
  | BlockQuotePrefix : Name
  | ByteOrderMark : Name
  | CharacterEscape : Name
  | CharacterEscapeMarker : Name
  | CharacterEscapeValue : Name
  | CharacterReference : Name
  | CharacterReferenceMarker : Name
  | CharacterReferenceMarkerHexadecimal : Name
  | CharacterReferenceMarkerNumeric : Name
  | CharacterReferenceMarkerSemi : Name
  | CharacterReferenceValue : Name
  | CodeFenced : Name
  | CodeFencedFence : Name
  | CodeFencedFenceInfo : Name
  | CodeFencedFenceMeta : Name
  | CodeFencedFenceSequence : Name
  | CodeFlowChunk : Name
  | CodeIndented : Name
  | CodeText : Name
  | CodeTextData : Name
  | CodeTextSequence : Name
  | Data : Name
  | Definition : Name
  | DefinitionDestination : Name
  | DefinitionDestinationLiteral : Name
  | DefinitionDestinationLiteralMarker : Name
  | DefinitionDestinationRaw : Name
  | DefinitionDestinationString : Name
  | DefinitionLabel : Name
  | DefinitionLabelMarker : Name
  | DefinitionLabelString : Name
  | DefinitionMarker : Name
  | DefinitionTitle : Name
  | DefinitionTitleMarker : Name
  | DefinitionTitleString : Name
  | Emphasis : Name
  | EmphasisSequence : Name
  | EmphasisText : Name
  | Frontmatter : Name
  | FrontmatterChunk : Name
  | FrontmatterFence : Name
  | FrontmatterSequence : Name
  | GfmAutolinkLiteralEmail : Name
  | GfmAutolinkLiteralProtocol : Name
  | GfmAutolinkLiteralWww : Name
  | GfmFootnoteCall : Name
  | GfmFootnoteCallLabel : Name
  | GfmFootnoteCallMarker : Name
  | GfmFootnoteDefinition : Name
  | GfmFootnoteDefinitionPrefix : Name
  | GfmFootnoteDefinitionLabel : Name
  | GfmFootnoteDefinitionLabelMarker : Name
  | GfmFootnoteDefinitionLabelString : Name
  | GfmFootnoteDefinitionMarker : Name
  | GfmStrikethrough : Name
  | GfmStrikethroughSequence : Name
  | GfmStrikethroughText : Name
  | GfmTaskListItemCheck : Name
  | GfmTaskListItemMarker : Name
  | GfmTaskListItemValueChecked : Name
  | GfmTaskListItemValueUnchecked : Name
  | HardBreakEscape : Name
  | HardBreakTrailing : Name
  | HeadingAtx : Name
  | HeadingAtxSequence : Name
  | HeadingAtxText : Name
  | HeadingSetext : Name
  | HeadingSetextText : Name
  | HeadingSetextUnderline : Name
  | HtmlFlow : Name
  | HtmlFlowData : Name
  | HtmlText : Name
  | HtmlTextData : Name
  | Image : Name
  | Label : Name
  | LabelEnd : Name
  | LabelImage : Name
  | LabelImageMarker : Name
  | LabelLink : Name
  | LabelMarker : Name
  | LabelText : Name
  | LineEnding : Name
  | Link : Name
  | ListItem : Name
  | ListItemMarker : Name
  | ListItemPrefix : Name
  | ListItemValue : Name
  | ListOrdered : Name
  | ListUnordered : Name
  | MathText : Name
  | MathTextData : Name
  | MathTextSequence : Name
  | Paragraph : Name
  | Reference : Name
  | ReferenceMarker : Name
  | ReferenceString : Name
  | Resource : Name
  | ResourceDestination : Name
  | ResourceDestinationLiteral : Name
  | ResourceDestinationLiteralMarker : Name
  | ResourceDestinationRaw : Name
  | ResourceDestinationString : Name
  | ResourceMarker : Name
  | ResourceTitle : Name
  | ResourceTitleMarker : Name
  | ResourceTitleString : Name
  | SpaceOrTab : Name
  | Strong : Name
  | StrongSequence : Name
  | StrongText : Name
  | ThematicBreak : Name
  | ThematicBreakSequence : Name
deriving DecidableEq, Repr

/-- Constant `VOID_EVENTS` from `src/event.rs`: the hard-coded list of void
names, in source order. -/
def VOID_EVENTS : List Name := [
  Name.AttentionSequence,
  Name.AutolinkEmail,
  Name.AutolinkMarker,
  Name.AutolinkProtocol,
  Name.BlankLineEnding,
  Name.BlockQuoteMarker,
  Name.ByteOrderMark,
  Name.CharacterEscapeMarker,
  Name.CharacterEscapeValue,
  Name.CharacterReferenceMarker,
  Name.CharacterReferenceMarkerHexadecimal,
  Name.CharacterReferenceMarkerNumeric,
  Name.CharacterReferenceMarkerSemi,
  Name.CharacterReferenceValue,
  Name.CodeFencedFenceSequence,
  Name.CodeFlowChunk,
  Name.CodeTextData,
  Name.CodeTextSequence,
  Name.Data,
  Name.DefinitionDestinationLiteralMarker,
  Name.DefinitionLabelMarker,
  Name.DefinitionMarker,
  Name.DefinitionTitleMarker,
  Name.EmphasisSequence,
  Name.FrontmatterChunk,
  Name.GfmAutolinkLiteralEmail,
  Name.GfmAutolinkLiteralProtocol,
  Name.GfmAutolinkLiteralWww,
  Name.GfmFootnoteCallMarker,
  Name.GfmFootnoteDefinitionLabelMarker,
  Name.GfmFootnoteDefinitionMarker,
  Name.GfmStrikethroughSequence,
  Name.GfmTaskListItemMarker,
  Name.GfmTaskListItemValueChecked,
  Name.GfmTaskListItemValueUnchecked,
  Name.FrontmatterSequence,
  Name.HardBreakEscape,
  Name.HardBreakTrailing,
  Name.HeadingAtxSequence,
  Name.HeadingSetextUnderline,
  Name.HtmlFlowData,
  Name.HtmlTextData,
  Name.LabelImageMarker,
  Name.LabelMarker,
  Name.LineEnding,
  Name.ListItemMarker,
  Name.ListItemValue,
  Name.MathTextData,
  Name.MathTextSequence,
  Name.ReferenceMarker,
  Name.ResourceMarker,
  Name.ResourceTitleMarker,
  Name.SpaceOrTab,
  Name.StrongSequence,
  Name.ThematicBreakSequence]

/-- Function `Point::shift_to` from `src/event.rs`, over the byte buffer as a
list of byte values.  The fatal branches — the `debug_assert!` that the
target lies strictly ahead, the `unreachable!` on a line-ending byte,
the `unreachable!("to do: tab")` on a tab byte, and an out-of-range
buffer read — are modelled as `Option.none`; a normal return is
`Option.some` of the shifted point. -/
def shiftLoop (bytes : List Nat) (target : Nat) (p : Point) : Option Point :=
  if p.index < target then
    match bytes.get? p.index with
    | Option.none => Option.none
    | Option.some b =>
      if b = 10 ∨ b = 13 then Option.none
      else if b = 9 then Option.none
      else shiftLoop bytes target ⟨p.line, p.column + 1, p.index + 1, p.vs⟩
  else Option.some p
termination_by target - p.index
decreasing_by simp_wf; omega

/-- Entry of `Point::shift_to`: asserts `index > self.index`, then walks the
per-byte loop. -/
def Point.shift_to (p : Point) (bytes : List Nat) (index : Nat) : Option Point :=
  if p.index < index then shiftLoop bytes index p else Option.none

/-- The tokenizer state reached while parsing the input `a`, line feed,
`b`, line feed, `=`, line feed, at the moment the failed underline
attempt hands the first line feed to `text_continue`: the heading and
its text are open, the first chunk of text is closed, and the text span
has just been exited. -/
def setextMidTokenizer : Tokenizer :=
  ⟨[⟨Kind.enter, TokenType.headingSetext, ⟨1, 1, 0, 0⟩, Option.none, Option.none⟩,
    ⟨Kind.enter, TokenType.headingSetextText, ⟨1, 1, 0, 0⟩, Option.none, Option.none⟩,
    ⟨Kind.enter, TokenType.chunkText, ⟨1, 1, 0, 0⟩, Option.none, Option.none⟩,
    ⟨Kind.exit, TokenType.chunkText, ⟨1, 2, 1, 0⟩, Option.none, Option.none⟩,
    ⟨Kind.exit, TokenType.headingSetextText, ⟨1, 2, 1, 0⟩, Option.none, Option.none⟩],
   ⟨1, 2, 1, 0⟩⟩

/-- Is this event an Enter of `HeadingSetextText`? -/
def isHSTEnter (e : Event) : Bool :=
  decide (e.kind = Kind.enter ∧ e.tokenType = TokenType.headingSetextText)

/-- Is the code one of the codes the label factory consumes without
setting `data`: space, tab, virtual space, or a line ending? -/
def isWsCode (c : Code) : Bool :=
  match c with
  | Code.virtualSpace => true
  | Code.carriageReturnLineFeed => true
  | Code.char ch => ch == ' ' || ch == '\t' || ch == '\r' || ch == '\n'
  | _ => false

theorem shiftLoop_ok (bytes : List Nat) (target : Nat) :
    ∀ k (p : Point), target - p.index ≤ k → p.index ≤ target → target ≤ bytes.length →
    (∀ i b, p.index ≤ i → i < target → bytes.get? i = Option.some b →
      ¬(b = 10 ∨ b = 13 ∨ b = 9)) →
    shiftLoop bytes target p = Option.some ⟨p.line, p.column + (target - p.index), target, p.vs⟩ := by
  intro k
  induction k with
  | zero =>
    intro p hk hle hlen hb
    rw [shiftLoop, if_neg (by omega)]
    have h0 : target - p.index = 0 := by omega
    have h1 : target = p.index := by omega
    rw [h0, h1]
    simp
  | succ k ih =>
    intro p hk hle hlen hb
    by_cases hlt : p.index < target
    · have hidx : p.index < bytes.length := by omega
      obtain ⟨b, hbv⟩ : ∃ b, bytes.get? p.index = Option.some b :=
        ⟨bytes.get ⟨p.index, hidx⟩, List.get?_eq_get hidx⟩
      have h10 : ¬(b = 10 ∨ b = 13) := by
        have := hb p.index b le_rfl hlt hbv
        tauto
      have h9 : ¬(b = 9) := by
        have := hb p.index b le_rfl hlt hbv
        tauto
      have hrec : shiftLoop bytes target ⟨p.line, p.column + 1, p.index + 1, p.vs⟩ =
          Option.some ⟨p.line, p.column + 1 + (target - (p.index + 1)), target, p.vs⟩ :=
        ih ⟨p.line, p.column + 1, p.index + 1, p.vs⟩
          (show target - (p.index + 1) ≤ k by omega)
          (show p.index + 1 ≤ target by omega) hlen
          (show ∀ i b', p.index + 1 ≤ i → i < target → bytes.get? i = Option.some b' →
              ¬(b' = 10 ∨ b' = 13 ∨ b' = 9) from
            fun i b' h1 h2 h3 => hb i b' (by omega) h2 h3)
      rw [shiftLoop, if_pos hlt, hbv]
      show (if b = 10 ∨ b = 13 then Option.none else
            if b = 9 then Option.none else
            shiftLoop bytes target ⟨p.line, p.column + 1, p.index + 1, p.vs⟩) = _
      have harith : p.column + 1 + (target - (p.index + 1)) = p.column + (target - p.index) := by
        omega
      rw [if_neg h10, if_neg h9, hrec, harith]
    · rw [shiftLoop, if_neg hlt]
      have h0 : target - p.index = 0 := by omega
      have h1 : target = p.index := by omega
      rw [h0, h1]
      simp

theorem stvRun_snd : ∀ (l : List Code) (t : Tokenizer), (stvRun t l).2 = l.dropWhile isStv := by
  intro l
  induction l with
  | nil => intro t; rfl
  | cons c rest ih =>
    intro t
    rw [stvRun, List.dropWhile_cons]
    by_cases h : isStv c
    · simp [h, ih]
    · simp [h]

theorem sot_opt_snd (t : Tokenizer) (input : List Code) :
    (space_or_tab_opt t input).2 = input.dropWhile isStv := by
  rw [space_or_tab_opt]
  by_cases h : isStv (curCode input)
  · simp [h, stvRun_snd]
  · cases input with
    | nil => simp [h]
    | cons c rest =>
      have hc : ¬ (isStv c = true) := by simpa [curCode] using h
      simp [h, List.dropWhile_cons, hc]

theorem dropWhile_app_rsb : ∀ (l : List Code),
    (l ++ [Code.char ']']).dropWhile isStv = l.dropWhile isStv ++ [Code.char ']'] := by
  intro l
  induction l with
  | nil => simp [List.dropWhile]; decide
  | cons c rest ih =>
    rw [List.cons_append, List.dropWhile_cons, List.dropWhile_cons]
    by_cases h : isStv c
    · simp [h, ih]
    · simp [h]

theorem dropWhile_ws : ∀ (l : List Code), (∀ c ∈ l, isWsCode c = true) →
    l.dropWhile isStv = [] ∨
    ∃ rest, l.dropWhile isStv = Code.carriageReturnLineFeed :: rest ∨
      l.dropWhile isStv = Code.char '\r' :: rest ∨
      l.dropWhile isStv = Code.char '\n' :: rest := by
  intro l
  induction l with
  | nil => intro h; left; rfl
  | cons c rest ih =>
    intro h
    have hc : isWsCode c = true := h c (List.mem_cons_self c rest)
    rw [List.dropWhile_cons]
    by_cases hstv : isStv c
    · simp only [hstv, if_true]
      exact ih (fun x hx => h x (List.mem_cons_of_mem c hx))
    · simp only [hstv, if_false, Bool.false_eq_true]
      right
      refine ⟨rest, ?_⟩
      cases c with
      | none => simp [isWsCode] at hc
      | carriageReturnLineFeed => left; rfl
      | virtualSpace => simp [isStv] at hstv
      | char ch =>
        simp only [isWsCode, Bool.or_eq_true, beq_iff_eq] at hc
        rcases hc with ((h1 | h1) | h1) | h1
        · exact absurd (by simp [isStv, h1]) hstv
        · exact absurd (by simp [isStv, h1]) hstv
        · right; left; rw [h1]
        · right; right; rw [h1]

theorem label_x_iff :
    ∀ (m : Nat), ∀ (fuel : Nat) (t : Tokenizer) (info : PartialLabel.Info),
      info.data = true → m + 2 ≤ fuel →
      ((PartialLabel.label fuel t
          (List.replicate m (Code.char 'x') ++ [Code.char ']']) info).state = State.ok ↔
        info.size + m ≤ 999) := by
  intro m
  induction m with
  | zero =>
    intro fuel t info hd hf
    obtain ⟨f, rfl⟩ : ∃ f, fuel = f + 2 := ⟨fuel - 2, by omega⟩
    rw [PartialLabel.label]
    simp only [List.replicate, List.nil_append, curCode, List.headD]
    rw [PartialLabel.at_break]
    simp only [curCode, List.headD, hd, LINK_REFERENCE_SIZE_MAX]
    by_cases hs : info.size > 999
    · simp [hs]
    · simp [hs]
      omega
  | succ m ih =>
    intro fuel t info hd hf
    obtain ⟨f, rfl⟩ : ∃ f, fuel = f + 2 := ⟨fuel - 2, by omega⟩
    rw [PartialLabel.label]
    simp only [List.replicate_succ, List.cons_append, curCode, List.headD,
      LINK_REFERENCE_SIZE_MAX]
    simp +decide only []
    by_cases hs : info.size > 999
    · rw [if_pos hs]
      rw [PartialLabel.at_break]
      simp only [curCode, List.headD, LINK_REFERENCE_SIZE_MAX]
      simp +decide [hs]
      omega
    · rw [if_neg hs]
      simp only [List.tail_cons]
      rw [ih (f + 1) _ _ (by simp) (by omega)]
      show info.size + 1 + m ≤ 999 ↔ info.size + (m + 1) ≤ 999
      omega

theorem start_x_iff (m f : Nat) (t : Tokenizer) (hf : m + 2 ≤ f) :
    ((PartialLabel.start (f + 3) t
        (Code.char '[' :: (List.replicate (m + 1) (Code.char 'x') ++ [Code.char ']']))
        definitionOptions).state = State.ok ↔ m + 1 ≤ 999) := by
  rw [PartialLabel.start]
  simp only [curCode, List.headD, List.tail_cons]
  rw [PartialLabel.at_break]
  simp only [List.replicate_succ, List.cons_append, curCode, List.headD,
    LINK_REFERENCE_SIZE_MAX]
  simp +decide only [ite_true, ite_false]
  rw [PartialLabel.label]
  simp only [curCode, List.headD, LINK_REFERENCE_SIZE_MAX]
  simp +decide only [ite_true, ite_false, List.tail_cons]
  rw [label_x_iff m f _ _ (by simp) (by omega)]
  show 1 + m ≤ 999 ↔ m + 1 ≤ 999
  omega

theorem label_ws_nok : ∀ (ws : List Code), (∀ c ∈ ws, isWsCode c = true) →
    ∀ (fuel : Nat) (t : Tokenizer) (info : PartialLabel.Info), info.data = false →
    2 * ws.length + 6 ≤ fuel →
    (PartialLabel.label fuel t (ws ++ [Code.char ']']) info).state = State.nok := by
  intro ws
  induction ws with
  | nil =>
    intro h fuel t info hd hf
    obtain ⟨f, rfl⟩ : ∃ f, fuel = f + 2 := ⟨fuel - 2, by omega⟩
    rw [PartialLabel.label]
    simp only [List.nil_append, curCode, List.headD]
    rw [PartialLabel.at_break]
    simp only [curCode, List.headD, hd]
    rfl
  | cons c rest ih =>
    intro h fuel t info hd hf
    have hc : isWsCode c = true := h c (List.mem_cons_self c rest)
    have hrest : ∀ x ∈ rest, isWsCode x = true :=
      fun x hx => h x (List.mem_cons_of_mem c hx)
    obtain ⟨f, rfl⟩ : ∃ f, fuel = f + 4 := ⟨fuel - 4, by omega⟩
    have hlen : 2 * rest.length + 6 ≤ f + 3 := by
      simp only [List.length_cons] at hf
      omega
    -- the shared line-ending continuation: line_start → line_begin → Nok
    have hline : ∀ (t' : Tokenizer) (info' : PartialLabel.Info), info'.data = false →
        (PartialLabel.line_start (f + 3) t' (rest ++ [Code.char ']']) info').state =
          State.nok := by
      intro t' info' hd'
      rw [PartialLabel.line_start]
      rw [sot_opt_snd, dropWhile_app_rsb]
      rcases dropWhile_ws rest hrest with hnil | ⟨r₂, he | he | he⟩
      · rw [hnil]
        rw [PartialLabel.line_begin]
        simp only [List.nil_append, curCode, List.headD]
        simp +decide only []
        rw [PartialLabel.at_break]
        simp only [curCode, List.headD, hd']
        rfl
      · rw [he]
        rw [PartialLabel.line_begin]
        simp only [List.cons_append, curCode, List.headD]
      · rw [he]
        rw [PartialLabel.line_begin]
        simp only [List.cons_append, curCode, List.headD]
      · rw [he]
        rw [PartialLabel.line_begin]
        simp only [List.cons_append, curCode, List.headD]
    -- the shared size-overflow continuation: at_break with the guard → Nok
    have hover : ∀ (t' : Tokenizer) (inp : List Code), curCode inp = c →
        info.size > 999 →
        (PartialLabel.at_break (f + 3) t' inp info).state = State.nok := by
      intro t' inp hcur hs
      rw [PartialLabel.at_break, hcur]
      cases c with
      | none => simp [isWsCode] at hc
      | carriageReturnLineFeed =>
        simp only [LINK_REFERENCE_SIZE_MAX]
        rw [if_pos hs]
      | virtualSpace =>
        simp only [LINK_REFERENCE_SIZE_MAX]
        rw [if_pos hs]
      | char ch =>
        simp only [isWsCode, Bool.or_eq_true, beq_iff_eq] at hc
        rcases hc with ((h1 | h1) | h1) | h1 <;> subst h1 <;>
          · simp +decide only [LINK_REFERENCE_SIZE_MAX]
            rw [if_pos hs]
    rw [PartialLabel.label]
    cases c with
    | none => simp [isWsCode] at hc
    | carriageReturnLineFeed =>
      simp +decide only [List.cons_append, curCode, List.headD, LINK_REFERENCE_SIZE_MAX,
        List.tail_cons]
      by_cases hs : info.size > 999
      · rw [if_pos hs]
        refine hover _ _ ?_ hs
        simp [curCode]
      · rw [if_neg hs]
        exact hline _ _ (by simp [hd])
    | virtualSpace =>
      simp +decide only [List.cons_append, curCode, List.headD, LINK_REFERENCE_SIZE_MAX,
        List.tail_cons]
      by_cases hs : info.size > 999
      · rw [if_pos hs]
        refine hover _ _ ?_ hs
        simp [curCode]
      · rw [if_neg hs]
        exact ih hrest (f + 3) _ _ (by simp [hd]) hlen
    | char ch =>
      have hch : ch = ' ' ∨ ch = '\t' ∨ ch = '\r' ∨ ch = '\n' := by
        simp only [isWsCode, Bool.or_eq_true, beq_iff_eq] at hc
        tauto
      rcases hch with h1 | h1 | h1 | h1 <;> subst h1
      · simp +decide only [List.cons_append, curCode, List.headD, LINK_REFERENCE_SIZE_MAX,
          List.tail_cons]
        by_cases hs : info.size > 999
        · rw [if_pos hs]
          refine hover _ _ ?_ hs
          simp [curCode]
        · rw [if_neg hs]
          exact ih hrest (f + 3) _ _ (by simp [hd]) hlen
      · simp +decide only [List.cons_append, curCode, List.headD, LINK_REFERENCE_SIZE_MAX,
          List.tail_cons]
        by_cases hs : info.size > 999
        · rw [if_pos hs]
          refine hover _ _ ?_ hs
          simp [curCode]
        · rw [if_neg hs]
          exact ih hrest (f + 3) _ _ (by simp [hd]) hlen
      · simp +decide only [List.cons_append, curCode, List.headD, LINK_REFERENCE_SIZE_MAX,
          List.tail_cons]
        by_cases hs : info.size > 999
        · rw [if_pos hs]
          refine hover _ _ ?_ hs
          simp [curCode]
        · rw [if_neg hs]
          exact hline _ _ (by simp [hd])
      · simp +decide only [List.cons_append, curCode, List.headD, LINK_REFERENCE_SIZE_MAX,
          List.tail_cons]
        by_cases hs : info.size > 999
        · rw [if_pos hs]
          refine hover _ _ ?_ hs
          simp [curCode]
        · rw [if_neg hs]
          exact hline _ _ (by simp [hd])

theorem underline_ws_prefix_nok (fuel : Nat) (t : Tokenizer) (input : List Code)
    (pre : List Event) (e1 e2 : Event)
    (hev : t.events = pre ++ [e1, e2])
    (h1k : e1.kind = Kind.enter) (h1t : e1.tokenType = TokenType.whitespace)
    (h2k : e2.kind = Kind.exit) (h2t : e2.tokenType = TokenType.whitespace)
    (hspan : TAB_SIZE ≤ e2.point.index - e1.point.index) :
    (HeadingSetext.underline_sequence_start (fuel + 1) t input).state = State.nok := by
  have hev' : t.events = (pre ++ [e1]) ++ [e2] := by simp [hev]
  have hlast : t.events.getLast? = Option.some e2 := by
    rw [hev']
    exact List.getLast?_concat _
  have hlen : t.events.length - 1 = pre.length + 1 := by
    rw [hev]
    simp
  have hspanlen : spanLenOfExit t.events (t.events.length - 1) =
      e2.point.index - e1.point.index := by
    rw [spanLenOfExit, hlen]
    have hget : t.events.get? (pre.length + 1) = Option.some e2 := by
      rw [hev, List.get?_append_right (by omega)]
      simp
    rw [hget]
    have htake : t.events.take (pre.length + 1) = pre ++ [e1] := by
      rw [hev', List.take_left' (by simp)]
    rw [htake]
    have hrev : (pre ++ [e1]).reverse = e1 :: pre.reverse := by simp
    rw [hrev]
    show (match List.find?
        (fun e => decide (e.kind = Kind.enter ∧ e.tokenType = e2.tokenType))
        (e1 :: pre.reverse) with
      | Option.some ent => e2.point.index - ent.point.index
      | Option.none => 0) = e2.point.index - e1.point.index
    rw [List.find?_cons_of_pos _ (by simp [h1k, h1t, h2t])]
  rw [HeadingSetext.underline_sequence_start]
  rw [hlast]
  simp only [h2t, if_true, ite_true, hspanlen]
  rw [if_pos (by simpa [ge_iff_le] using hspan)]

/-- C1: the spec says that in the label state a backslash code is
consumed, marks `data = true` and transitions to the escape state, so
that in `[a\]b]` the escaped closing bracket does not terminate the
label and the inner string is `a\]b`.  The code disagrees: its escape
transition fires on `/`, not on `\`, so the backslash is ordinary data
and the first `]` closes the label.  This theorem evaluates the code at
the failing input: the parse returns Ok having consumed only `[a\]`,
leaving `b]` unconsumed, with the inner string span covering byte
indices 1 to 3, that is `a\` rather than `a\]b`. -/
theorem c1_label_escape_on_slash :
    (runLabel (codesOfString ("[a\\]b]"))).state = State.ok ∧
    (runLabel (codesOfString ("[a\\]b]"))).rest = [Code.char 'b', Code.char ']'] ∧
    ((runLabel (codesOfString ("[a\\]b]"))).tok.events.getD 3 default).tokenType =
      TokenType.definitionLabelString ∧
    ((runLabel (codesOfString ("[a\\]b]"))).tok.events.getD 3 default).kind = Kind.enter ∧
    ((runLabel (codesOfString ("[a\\]b]"))).tok.events.getD 3 default).point.index = 1 ∧
    ((runLabel (codesOfString ("[a\\]b]"))).tok.events.getD 6 default).tokenType =
      TokenType.definitionLabelString ∧
    ((runLabel (codesOfString ("[a\\]b]"))).tok.events.getD 6 default).kind = Kind.exit ∧
    ((runLabel (codesOfString ("[a\\]b]"))).tok.events.getD 6 default).point.index = 3 := by
  decide

/-- C2 counterexample: the claim says that after the text-continue state
the event log contains a second `HeadingSetextText` Enter linked to the
first through the previous/next indices.  Running `text_continue` itself
at the tokenizer state it is actually reached with (input `a`, line
feed, `b`, line feed, `=`, line feed), the resulting log contains
exactly one `HeadingSetextText` Enter: the function pops the Enter it
just pushed together with the preceding Exit, so no second Enter
exists. -/
theorem c2_second_enter_counterexample :
    ((HeadingSetext.text_continue 40 setextMidTokenizer
        (codesOfString ("\nb\n=\n"))).tok.events.filter isHSTEnter).length = 1 := by
  decide

/-- C2 amended: in the text-continue state the tokenizer calls
`enter(HeadingSetextText)` but then pops two events, removing both that
new Enter and the preceding `HeadingSetextText` Exit, so the first
heading-text span is re-opened and extended instead of a second linked
Enter being created; the line ending is consumed inside a `LineEnding`
enter/exit pair, and the previous/next indices link the preceding
`ChunkText` Enter to the `LineEnding` Enter and the `LineEnding` Enter
on to the following `ChunkText` Enter.  Verified on the run over `a`,
line feed, `b`, line feed, `=`, line feed. -/
theorem c2_text_continue_amended :
    (runHeading (codesOfString ("a\nb\n=\n"))).state = State.ok ∧
    ((runHeading (codesOfString ("a\nb\n=\n"))).tok.events.filter isHSTEnter).length = 1 ∧
    ((runHeading (codesOfString ("a\nb\n=\n"))).tok.events.getD 4 default).tokenType =
      TokenType.lineEnding ∧
    ((runHeading (codesOfString ("a\nb\n=\n"))).tok.events.getD 4 default).kind = Kind.enter ∧
    ((runHeading (codesOfString ("a\nb\n=\n"))).tok.events.getD 4 default).previous =
      Option.some 2 ∧
    ((runHeading (codesOfString ("a\nb\n=\n"))).tok.events.getD 4 default).next =
      Option.some 6 ∧
    ((runHeading (codesOfString ("a\nb\n=\n"))).tok.events.getD 2 default).tokenType =
      TokenType.chunkText ∧
    ((runHeading (codesOfString ("a\nb\n=\n"))).tok.events.getD 2 default).next =
      Option.some 4 ∧
    ((runHeading (codesOfString ("a\nb\n=\n"))).tok.events.getD 5 default).tokenType =
      TokenType.lineEnding ∧
    ((runHeading (codesOfString ("a\nb\n=\n"))).tok.events.getD 5 default).kind = Kind.exit ∧
    ((runHeading (codesOfString ("a\nb\n=\n"))).tok.events.getD 6 default).tokenType =
      TokenType.chunkText ∧
    ((runHeading (codesOfString ("a\nb\n=\n"))).tok.events.getD 6 default).previous =
      Option.some 4 := by
  decide

/-- C3 counterexample: the claim says `shift_to` completes without a
fatal branch whenever the byte range contains no line endings, but the
byte 9 (a tab, not a line ending) hits the `unreachable!("to do: tab")`
branch: from index 0 to target 1 over the buffer `[9]` the function
aborts (modelled as `Option.none`). -/
theorem c3_shift_to_tab_counterexample :
    ([(9 : Nat)].get? 0 = Option.some 9 ∧ (9 : Nat) ≠ 10 ∧ (9 : Nat) ≠ 13) ∧
    Point.shift_to ⟨1, 1, 0, 0⟩ [9] 1 = Option.none := by
  refine ⟨by decide, ?_⟩
  rw [Point.shift_to, if_pos (by decide)]
  rw [shiftLoop]
  norm_num

/-- C3 amended: for every byte buffer and indices `start < target` with
`target` inside the buffer such that the bytes in `[start, target)`
contain no line-ending bytes and no tab bytes, `shift_to` completes
without reaching a fatal branch and returns the point at index `target`,
advancing the column by one per byte. -/
theorem c3_shift_to_amended (bytes : List Nat) (p : Point) (target : Nat)
    (h1 : p.index < target) (h2 : target ≤ bytes.length)
    (h3 : ∀ i b, p.index ≤ i → i < target → bytes.get? i = Option.some b →
      ¬(b = 10 ∨ b = 13 ∨ b = 9)) :
    Point.shift_to p bytes target =
      Option.some ⟨p.line, p.column + (target - p.index), target, p.vs⟩ := by
  rw [Point.shift_to, if_pos h1]
  exact shiftLoop_ok bytes target (target - p.index) p le_rfl (by omega) h2 h3

/-- Witness for C3 amended: shifting over the two non-special bytes
`[120, 121]` from index 0 to 2 returns index 2, column 3. -/
theorem c3_shift_to_amended_witness :
    Point.shift_to ⟨1, 1, 0, 0⟩ [120, 121] 2 = Option.some ⟨1, 3, 2, 0⟩ :=
  c3_shift_to_amended [120, 121] ⟨1, 1, 0, 0⟩ 2 (by decide) (by decide)
    (by
      intro i b hi1 hi2 hib
      interval_cases i <;> simp_all <;> omega)

/-- C4 counterexample: the claim quantifies over every `n`, but at
`n = 0` the input is `[]`, which the at-break state rejects because
`data` is still false, although `0 ≤ 999`; so "Ok if and only if
`n ≤ 999`" fails at `n = 0`. -/
theorem c4_empty_iff_counterexample :
    (0 : Nat) ≤ 999 ∧
    (runLabel (Code.char '[' :: (List.replicate 0 (Code.char 'x') ++ [Code.char ']']))).state =
      State.nok := by
  decide

/-- C4 amended: for every `n ≥ 1`, parsing `[`, then `n` bytes of `x`,
then `]` with the label factory returns Ok if and only if
`n ≤ 999` (`LINK_REFERENCE_SIZE_MAX`); in particular `n = 1000` is
rejected because the size exceeds the limit, while `n = 0` is rejected
separately as an empty label. -/
theorem c4_size_limit_amended (n : Nat) (hn : 1 ≤ n) :
    ((runLabel (Code.char '[' ::
        (List.replicate n (Code.char 'x') ++ [Code.char ']']))).state = State.ok ↔
      n ≤ 999) := by
  obtain ⟨m, rfl⟩ : ∃ m, n = m + 1 := ⟨n - 1, by omega⟩
  rw [runLabel]
  have hfe : 4 * (Code.char '[' ::
      (List.replicate (m + 1) (Code.char 'x') ++ [Code.char ']'])).length + 16 =
      4 * m + 25 + 3 := by
    simp only [List.length_cons, List.length_append, List.length_replicate,
      List.length_nil]
    omega
  rw [hfe, start_x_iff m (4 * m + 25) initialTokenizer (by omega)]

/-- Witness for C4 amended: at `n = 1` the run accepts and `1 ≤ 999`. -/
theorem c4_size_limit_amended_witness :
    1 ≤ 1 ∧
    ((runLabel (Code.char '[' ::
        (List.replicate 1 (Code.char 'x') ++ [Code.char ']']))).state = State.ok ↔
      (1 : Nat) ≤ 999) := by
  exact ⟨le_rfl, c4_size_limit_amended 1 le_rfl⟩

/-- C5: in the underline-sequence-start state, if the log ends with a
Whitespace span (its Enter followed by its Exit) covering at least
`TAB_SIZE` bytes, the state returns Nok whatever the current code and
input are; and for the input `alpha`, line feed, four spaces, `===`,
line feed, the whole setext heading construct returns Nok. -/
theorem c5_underline_indent_nok :
    (∀ (fuel : Nat) (t : Tokenizer) (input : List Code) (pre : List Event) (e1 e2 : Event),
      t.events = pre ++ [e1, e2] → e1.kind = Kind.enter →
      e1.tokenType = TokenType.whitespace → e2.kind = Kind.exit →
      e2.tokenType = TokenType.whitespace →
      TAB_SIZE ≤ e2.point.index - e1.point.index →
      (HeadingSetext.underline_sequence_start (fuel + 1) t input).state = State.nok) ∧
    (runHeading (codesOfString ("alpha\n    ===\n"))).state = State.nok := by
  constructor
  · intro fuel t input pre e1 e2 hev h1k h1t h2k h2t hspan
    exact underline_ws_prefix_nok fuel t input pre e1 e2 hev h1k h1t h2k h2t hspan
  · decide

/-- Witness for C5: a log ending with a four-byte Whitespace span makes
the state return Nok even on an `=` code. -/
theorem c5_underline_indent_nok_witness :
    (HeadingSetext.underline_sequence_start 1
      ⟨[⟨Kind.enter, TokenType.whitespace, ⟨2, 1, 6, 0⟩, Option.none, Option.none⟩,
        ⟨Kind.exit, TokenType.whitespace, ⟨2, 5, 10, 0⟩, Option.none, Option.none⟩],
       ⟨2, 5, 10, 0⟩⟩ [Code.char '=']).state = State.nok :=
  c5_underline_indent_nok.1 0 _ _ [] _ _ rfl rfl rfl rfl rfl (by decide)

/-- C6: a closing `]` reached with `data = false` is rejected: the input
`[]` returns Nok, and wrapping the parse in an attempt commits nothing —
the tokenizer and input come back exactly as they went in. -/
theorem c6_empty_label_nok :
    (runLabel (codesOfString ("[]"))).state = State.nok ∧
    (attemptRun (fun t input => PartialLabel.start 24 t input definitionOptions)
      initialTokenizer (codesOfString ("[]"))) =
      (false, initialTokenizer, codesOfString ("[]")) := by
  decide

/-- C7: the setext heading text must be closed by an underline and may
not contain blank lines: `text_inside` returns Nok on end of input, and
`text_line_start` returns Nok when the code after the line ending and
optional whitespace is end of input or another line ending. -/
theorem c7_setext_text_nok (fuel : Nat) (t : Tokenizer) (input : List Code) :
    (curCode input = Code.none →
      (HeadingSetext.text_inside (fuel + 1) t input).state = State.nok) ∧
    ((curCode input = Code.none ∨ curCode input = Code.carriageReturnLineFeed ∨
        curCode input = Code.char '\n' ∨ curCode input = Code.char '\r') →
      (HeadingSetext.text_line_start (fuel + 1) t input).state = State.nok) := by
  constructor
  · intro h
    unfold HeadingSetext.text_inside
    simp [h]
  · intro h
    unfold HeadingSetext.text_line_start
    rcases h with h | h | h | h <;> simp [h]

/-- Witness for C7: end of input inside the text, and a line feed at a
line start, both produce Nok. -/
theorem c7_setext_text_nok_witness :
    (HeadingSetext.text_inside 1 initialTokenizer []).state = State.nok ∧
    (HeadingSetext.text_line_start 1 initialTokenizer [Code.char '\n']).state = State.nok :=
  ⟨(c7_setext_text_nok 0 initialTokenizer []).1 rfl,
   (c7_setext_text_nok 0 initialTokenizer [Code.char '\n']).2 (by decide)⟩

/-- C8: `VOID_EVENTS` holds exactly 55 names, contains no duplicates,
and `LineEnding`, `SpaceOrTab`, `HeadingSetextUnderline` and `Data` are
among its members. -/
theorem c8_void_events_structure :
    VOID_EVENTS.length = 55 ∧ VOID_EVENTS.Nodup ∧
    Name.LineEnding ∈ VOID_EVENTS ∧ Name.SpaceOrTab ∈ VOID_EVENTS ∧
    Name.HeadingSetextUnderline ∈ VOID_EVENTS ∧ Name.Data ∈ VOID_EVENTS := by
  decide

/-- C9: on any code other than `[`, the label factory's start state
returns Nok with the tokenizer and the input untouched: no enter,
consume or exit has happened, so the failure is atomic even without an
enclosing attempt's rollback. -/
theorem c9_label_start_atomic (fuel : Nat) (t : Tokenizer) (input : List Code)
    (opts : PartialLabel.Options) (h : curCode input ≠ Code.char '[') :
    PartialLabel.start (fuel + 1) t input opts = ⟨State.nok, t, input⟩ := by
  unfold PartialLabel.start
  split
  · rfl
  · split
    next heq => exact absurd heq h
    next => rfl

/-- Witness for C9: an `a` at the start state fails and leaves the
initial tokenizer and input unchanged. -/
theorem c9_label_start_atomic_witness :
    PartialLabel.start 1 initialTokenizer [Code.char 'a'] definitionOptions =
      ⟨State.nok, initialTokenizer, [Code.char 'a']⟩ :=
  c9_label_start_atomic 0 initialTokenizer [Code.char 'a'] definitionOptions (by decide)

/-- C10: whitespace and line-ending codes inside a label never set the
`data` flag, so a bracket pair whose content consists solely of spaces,
tabs, virtual spaces and line endings is always rejected with Nok,
whatever the size. -/
theorem c10_whitespace_only_nok (ws : List Code) (hws : ∀ c ∈ ws, isWsCode c = true) :
    (runLabel (Code.char '[' :: (ws ++ [Code.char ']']))).state = State.nok := by
  rw [runLabel]
  have hfe : 4 * (Code.char '[' :: (ws ++ [Code.char ']'])).length + 16 =
      (4 * ws.length + 23) + 1 := by
    simp only [List.length_cons, List.length_append, List.length_nil]
    omega
  rw [hfe]
  rw [PartialLabel.start]
  simp only [curCode, List.headD, List.tail_cons]
  cases ws with
  | nil =>
    rw [PartialLabel.at_break]
    simp only [List.nil_append, curCode, List.headD]
    simp +decide only []
  | cons c rest =>
    have hfe2 : 4 * (c :: rest).length + 23 = (4 * rest.length + 26) + 1 := by
      simp only [List.length_cons]
      omega
    rw [hfe2]
    rw [PartialLabel.at_break]
    have hc : isWsCode c = true := hws c (List.mem_cons_self c rest)
    have hfuel : 2 * (c :: rest).length + 6 ≤ 4 * rest.length + 26 := by
      simp only [List.length_cons]
      omega
    cases c with
    | none => simp [isWsCode] at hc
    | carriageReturnLineFeed =>
      simp +decide only [List.cons_append, curCode, List.headD, LINK_REFERENCE_SIZE_MAX,
        ite_true, ite_false]
      simpa only [List.cons_append] using
        label_ws_nok (Code.carriageReturnLineFeed :: rest) hws (4 * rest.length + 26) _ _
          (by simp) hfuel
    | virtualSpace =>
      simp +decide only [List.cons_append, curCode, List.headD, LINK_REFERENCE_SIZE_MAX,
        ite_true, ite_false]
      simpa only [List.cons_append] using
        label_ws_nok (Code.virtualSpace :: rest) hws (4 * rest.length + 26) _ _
          (by simp) hfuel
    | char ch =>
      have hch : ch = ' ' ∨ ch = '\t' ∨ ch = '\r' ∨ ch = '\n' := by
        simp only [isWsCode, Bool.or_eq_true, beq_iff_eq] at hc
        tauto
      rcases hch with h1 | h1 | h1 | h1 <;> subst h1 <;>
        · simp +decide only [List.cons_append, curCode, List.headD, LINK_REFERENCE_SIZE_MAX,
            ite_true, ite_false]
          simpa only [List.cons_append] using
            label_ws_nok (_ :: rest) hws (4 * rest.length + 26) _ _ (by simp) hfuel

/-- Witness for C10: the label `[ ]`, a single space between brackets,
is rejected with Nok. -/
theorem c10_whitespace_only_nok_witness :
    (runLabel (Code.char '[' :: ([Code.char ' '] ++ [Code.char ']']))).state = State.nok :=
  c10_whitespace_only_nok [Code.char ' '] (by decide)
